import Mathlib

/-!
Verification model of `dict_of_dicts_init.py`, a Python 2 timing script that
compares six idioms for initialising an entry of a dict of dicts under two
conditions (outer key present / absent) and prints one ranked table per
condition.

The embedding is shallow:
* inner dict objects live in an explicit `Heap` (address → contents), so that
  the aliasing introduced by the shallow copy `d = d1.copy()` and the object
  identity questions of the spec are faithfully represented;
* the working binding `d` is the key → address graph of the current outer
  dict, carried in a `DState` together with the heap;
* each `exec`'d source fragment of the script is translated to a function on
  `DState`, returning `none` where Python would raise an uncaught exception
  (`KeyError` from `del` or from subscripting a missing key of a plain dict);
* measured wall-clock times are inputs of the reporting pipeline (they are
  nondeterministic in the real program), modelled as rationals.
-/

namespace TimeitAB

/-- Decimal digit character: the digit `d` of Python's `str(i)`. -/
def digitChar (d : Nat) : Char := Char.ofNat (48 + d)

/-- Decimal digits of a natural number, most significant first.  Fuel-based
recursion (the fuel only bounds the number of digits) so that it reduces by
`rfl` / `decide`. -/
def decDigitsAux : Nat → Nat → List Char
  | 0, _ => []
  | fuel + 1, n =>
    if n < 10 then [digitChar n] else decDigitsAux fuel (n / 10) ++ [digitChar (n % 10)]

/-- Decimal digits of `n`, most significant first. -/
def decDigits (n : Nat) : List Char := decDigitsAux (n + 1) n

/-- Python `str(n)` for a natural number. -/
def decRepr (n : Nat) : String := ⟨decDigits n⟩

/-- Python `str(z)` for an integer (used for the percentage field). -/
def intRepr (z : Int) : String := if z < 0 then "-" ++ decRepr z.natAbs else decRepr z.natAbs

/-- The key `'k' + str(i)` of the fixture dict `d1`. -/
def mkKey (i : Nat) : String := ⟨'k' :: decDigits i⟩

/-- An inner Python dict from strings to strings, as an insertion-ordered
association list (each key at most once, in insertion order). -/
abbrev Inner := List (String × String)

/-- Python dict assignment `m[k] = v` on an inner dict: overwrite in place if
`k` is present, else append at the end. -/
def innerSet (m : Inner) (k v : String) : Inner :=
  if m.any (fun p => p.1 == k) then m.map (fun p => if p.1 = k then (k, v) else p)
  else m ++ [(k, v)]

/-- Heap of inner dict objects: contents of each allocated address, plus the
next fresh address. -/
structure Heap where
  store : Nat → Option Inner
  next : Nat

/-- Allocate a fresh inner dict object with contents `m`; returns the new heap
and the address of the new object. -/
def Heap.alloc (h : Heap) (m : Inner) : Heap × Nat :=
  ({ store := fun b => if b = h.next then some m else h.store b, next := h.next + 1 }, h.next)

/-- In-place update `x[k] = v` of the inner dict object at address `a`. -/
def Heap.write (h : Heap) (a : Nat) (k v : String) : Heap :=
  { h with store := fun b => if b = a then (h.store a).map (fun m => innerSet m k v) else h.store b }

/-- Python dict assignment on an outer mapping (key to inner-object address). -/
def outerSet (o : String → Option Nat) (k : String) (a : Nat) : String → Option Nat :=
  fun s => if s = k then some a else o s

/-- Key → address graph built by the comprehension
`{'k' + str(i): {} for i in xrange(n)}`: starting from the empty dict, for each
`i` in order insert the key `'k' + str(i)` bound to the inner object allocated
for that `i` (the comprehension allocates the empty inner dict for index `i` at
address `i`). -/
def fixtureOuter : Nat → String → Option Nat
  | 0 => fun _ => none
  | n + 1 => outerSet (fixtureOuter n) (mkKey n) n

/-- The key → address graph of `d1 = {'k' + str(i): {} for i in xrange(10 ** 6)}`. -/
def d1 : String → Option Nat := fixtureOuter (10 ^ 6)

/-- The heap right after `d1` is built: the comprehension allocated the
addresses `0 .. 10 ^ 6 - 1`, each holding an empty inner dict. -/
def heap0 : Heap := { store := fun a => if a < 10 ^ 6 then some [] else none, next := 10 ^ 6 }

/-- The six test cases, in declaration order. -/
inductive TCase
  | setdefault
  | defaultdict
  | notIn
  | inElse
  | get
  | tryK
  deriving DecidableEq

/-- tests, in declaration order. -/
def tcases : List TCase :=
  [TCase.setdefault, TCase.defaultdict, TCase.notIn, TCase.inElse, TCase.get, TCase.tryK]

/-- The `name` field of each test case. -/
def tname : TCase → String
  | TCase.setdefault => "setdefault"
  | TCase.defaultdict => "defaultdict"
  | TCase.notIn => "not in"
  | TCase.inElse => "in else"
  | TCase.get => "get"
  | TCase.tryK => "try"

/-- Working state while a test runs: the current binding `d` (key → address
graph of the outer dict), whether `d` is a `collections.defaultdict(dict, ...)`,
and the heap of inner dict objects. -/
structure DState where
  map : String → Option Nat
  dd : Bool
  heap : Heap

/-- Python `d[k]` as an expression: on a `defaultdict` a missing key allocates
a fresh empty inner dict and inserts it; on a plain dict a missing key raises
`KeyError`, signalled by `none`. -/
def dGet (s : DState) (k : String) : DState × Option Nat :=
  match s.map k with
  | some a => (s, some a)
  | none =>
    if s.dd then
      let p := s.heap.alloc []
      ({ s with map := outerSet s.map k p.2, heap := p.1 }, some p.2)
    else (s, none)

/-- The statement `d[k1][k2] = v` on the working state (`none` = `KeyError`). -/
def indexAssign (s : DState) : Option DState :=
  let p := dGet s "k1"
  match p.2 with
  | none => none
  | some a => some { p.1 with heap := p.1.heap.write a "k2" "v" }

/-- measure of the "setdefault" case: `d.setdefault(k1, {})[k2] = v`.
The default argument `{}` is evaluated (allocated) on every call; if `k1` is
present the freshly allocated dict is discarded and the existing inner object
is the one mutated. -/
def measSetdefault (s : DState) : Option DState :=
  let p := s.heap.alloc []
  let s1 : DState := { s with heap := p.1 }
  match s1.map "k1" with
  | some a => some { s1 with heap := s1.heap.write a "k2" "v" }
  | none =>
    let s2 : DState := { s1 with map := outerSet s1.map "k1" p.2 }
    some { s2 with heap := s2.heap.write p.2 "k2" "v" }

/-- measure of the "not in" case:
`if k1 not in d: d[k1] = {}` followed by `d[k1][k2] = v`. -/
def measNotIn (s : DState) : Option DState :=
  let s1 : DState :=
    if (s.map "k1").isNone then
      let p := s.heap.alloc []
      { s with map := outerSet s.map "k1" p.2, heap := p.1 }
    else s
  indexAssign s1

/-- measure of the "in else" case:
`if k1 in d: d[k1][k2] = v else: d[k1] = {k2: v}`. -/
def measInElse (s : DState) : Option DState :=
  match s.map "k1" with
  | some a => some { s with heap := s.heap.write a "k2" "v" }
  | none =>
    let p := s.heap.alloc [("k2", "v")]
    some { s with map := outerSet s.map "k1" p.2, heap := p.1 }

/-- measure of the "get" case:
`vs = d.get(k1)`; `if vs is None: d[k1] = {k2: v} else: vs[k2] = v`. -/
def measGet (s : DState) : Option DState :=
  match s.map "k1" with
  | none =>
    let p := s.heap.alloc [("k2", "v")]
    some { s with map := outerSet s.map "k1" p.2, heap := p.1 }
  | some a => some { s with heap := s.heap.write a "k2" "v" }

/-- measure of the "try" case:
`try: d[k1][k2] = v except KeyError: d[k1] = {k2: v}`.  The subscript on a
plain dict has no side effect before raising, so the handler runs from the
original state. -/
def measTry (s : DState) : Option DState :=
  match indexAssign s with
  | some s1 => some s1
  | none =>
    let p := s.heap.alloc [("k2", "v")]
    some { s with map := outerSet s.map "k1" p.2, heap := p.1 }

/-- The compiled `measure` fragment of each test case. -/
def measure : TCase → DState → Option DState
  | TCase.setdefault => measSetdefault
  | TCase.defaultdict => indexAssign
  | TCase.notIn => measNotIn
  | TCase.inElse => measInElse
  | TCase.get => measGet
  | TCase.tryK => measTry

/-- Python `del d[k1]` (`none` = `KeyError` on a missing key). -/
def pyDel (s : DState) : Option DState :=
  match s.map "k1" with
  | none => none
  | some _ => some { s with map := fun x => if x = "k1" then none else s.map x }

/-- The compiled `init_each` fragment, identical for all six test cases:
`if not exists: del d[k1]`. -/
def initEach (exists_ : Bool) (s : DState) : Option DState :=
  if exists_ then some s else pyDel s

/-- The compiled `init_once` fragment: `d = d1.copy()` (a shallow copy: the
same key → address graph, so inner objects are shared with `d1`), except for
the "defaultdict" case, whose `init_once` is `d = defaultdict(dict, d1)`. -/
def initOnce (c : TCase) (h : Heap) : DState :=
  { map := d1, dd := c = TCase.defaultdict, heap := h }

/-- One iteration of the timed loop: `init_each` then `measure`. -/
def iterStep (exists_ : Bool) (c : TCase) (s : DState) : Option DState :=
  (initEach exists_ s).bind (measure c)

/-- The timed loop: `repeat` iterations of `init_each` + `measure`. -/
def runIters (exists_ : Bool) (c : TCase) : Nat → DState → Option DState
  | 0, s => some s
  | n + 1, s => (iterStep exists_ c s).bind (runIters exists_ c n)

/-- Run one test under one condition from a given heap: `init_once` once, then
the timed loop. -/
def runTest (exists_ : Bool) (c : TCase) (reps : Nat) (h : Heap) : Option DState :=
  runIters exists_ c reps (initOnce c h)

/-- Run a list of tests in order under one condition; the heap (with all inner
object mutations and garbage) persists from test to test, while the binding
`d` is rebuilt by each `init_once`. -/
def runTests (exists_ : Bool) (rep : TCase → Nat) : List TCase → Heap → Option Heap
  | [], h => some h
  | c :: cs, h => (runTest exists_ c (rep c) h).bind (fun s => runTests exists_ rep cs s.heap)

/-- State evolution of the whole `main` run: condition `exists = False` first,
then condition `exists = True`, each over all six tests in declaration order,
starting from the heap holding the freshly built fixture `d1`. -/
def runMain (rep : TCase → Nat) : Option Heap :=
  (runTests false rep tcases heap0).bind (fun h => runTests true rep tcases h)

/-- A test-case descriptor: the dict literal of one entry of `tests`.  The
`Option` fields model keys that may be absent from the dict (on those,
`dict.get` returns `None`). -/
structure TestSpec where
  name : String
  init_once : Option String := none
  init_each : Option String := none
  measure : String
  repeat_ : Option Nat := none

/-- defaults = dict(init_once='pass', init_each='pass', repeat=10**6). -/
structure DefaultsSpec where
  init_once : String
  init_each : String
  repeat_ : Nat

/-- The `defaults` dict of the script. -/
def defaults : DefaultsSpec := { init_once := "pass", init_each := "pass", repeat_ := 10 ^ 6 }

/-- The six descriptor dicts of `tests`, with their literal source fragments. -/
def testSpecs : List TestSpec :=
  [ { name := "setdefault", init_once := some "d = d1.copy()",
      init_each := some "if not exists: del d[k1]",
      measure := "d.setdefault(k1, \x7b\x7d)[k2] = v" },
    { name := "defaultdict",
      init_once := some "\nfrom collections import defaultdict\nd = defaultdict(dict, d1)\n",
      init_each := some "if not exists: del d[k1]",
      measure := "d[k1][k2] = v" },
    { name := "not in", init_once := some "d = d1.copy()",
      init_each := some "if not exists: del d[k1]",
      measure := "\nif k1 not in d:\n    d[k1] = \x7b\x7d\nd[k1][k2] = v\n" },
    { name := "in else", init_once := some "d = d1.copy()",
      init_each := some "if not exists: del d[k1]",
      measure := "\nif k1 in d:\n    d[k1][k2] = v\nelse:\n    d[k1] = \x7bk2: v\x7d\n" },
    { name := "get", init_once := some "d = d1.copy()",
      init_each := some "if not exists: del d[k1]",
      measure := "\nvs = d.get(k1)\nif vs is None:\n    d[k1] = \x7bk2: v\x7d\nelse:\n    vs[k2] = v\n" },
    { name := "try", init_once := some "d = d1.copy()",
      init_each := some "if not exists: del d[k1]",
      measure := "\ntry:\n    d[k1][k2] = v\nexcept KeyError:\n    d[k1] = \x7bk2: v\x7d\n\n" } ]

/-- The descriptor of each test case, in declaration order. -/
def specOf (c : TCase) : TestSpec :=
  match c with
  | TCase.setdefault => testSpecs[0]
  | TCase.defaultdict => testSpecs[1]
  | TCase.notIn => testSpecs[2]
  | TCase.inElse => testSpecs[3]
  | TCase.get => testSpecs[4]
  | TCase.tryK => testSpecs[5]

/-- Python `a or b` where `a` is an optional integer field: `None` and `0` are
falsy, so both fall back to the default. -/
def pyOrNat (o : Option Nat) (dflt : Nat) : Nat :=
  match o with
  | none => dflt
  | some n => if n = 0 then dflt else n

/-- Python `a or b` where `a` is an optional string field: `None` and the
empty string are falsy, so both fall back to the default. -/
def pyOrStr (o : Option String) (dflt : String) : String :=
  match o with
  | none => dflt
  | some t => if t = "" then dflt else t

/-- repeat = test.get('repeat') or defaults['repeat']. -/
def effRepeat (t : TestSpec) : Nat := pyOrNat t.repeat_ defaults.repeat_

/-- init_once = test.get('init_once') or defaults['init_once'] (the compiled source text). -/
def effInitOnce (t : TestSpec) : String := pyOrStr t.init_once defaults.init_once

/-- init_each = test.get('init_each') or defaults['init_each'] (the compiled source text). -/
def effInitEach (t : TestSpec) : String := pyOrStr t.init_each defaults.init_each

/-- The iteration count of each test case in the actual run. -/
def repeatOf (c : TCase) : Nat := effRepeat (specOf c)

/-- envs, the two environment condition strings. -/
def envs : List String := ["exists = False", "exists = True"]

/-- Modelled `exec(env)`: the first env string binds `exists` to `False`, the
second binds it to `True`. -/
def envFlag (e : String) : Bool := e == "exists = True"

/-- The per-condition accumulation loop over `tests`: append one
`(seconds, name)` Result Entry per test, and set `base_seconds` from the first
test processed (`if base_seconds is None`). -/
def accumResults (tm : TCase → ℚ) :
    List TCase → List (ℚ × String) × Option ℚ → List (ℚ × String) × Option ℚ
  | [], acc => acc
  | c :: cs, acc =>
    accumResults tm cs
      (acc.1 ++ [(tm c, tname c)], match acc.2 with | none => some (tm c) | some b => some b)

/-- results for one condition whose measured totals are `tm` (the loop starts
from `results = []`, `base_seconds = None`: reset for every condition). -/
def condResults (tm : TCase → ℚ) : List (ℚ × String) := (accumResults tm tcases ([], none)).1

/-- base_seconds for one condition. -/
def condBase (tm : TCase → ℚ) : Option ℚ := (accumResults tm tcases ([], none)).2

/-- Python tuple comparison on `(seconds, name)` pairs: lexicographic. -/
def pairLe (a b : ℚ × String) : Bool := decide (a.1 < b.1 ∨ (a.1 = b.1 ∧ a.2 ≤ b.2))

/-- sorted(results): Python's sorted is a stable merge sort over tuple order. -/
def sortedResults (tm : TCase → ℚ) : List (ℚ × String) := (condResults tm).mergeSort pairLe

/-- Python 2 `int(round(q))`: round half away from zero. -/
def pyRound (q : ℚ) : Int := if q < 0 then -⌊-q + 1 / 2⌋ else ⌊q + 1 / 2⌋

/-- Right alignment in a minimum-width field: the integer format spec pads
with spaces on the left up to the field width and never truncates. -/
def rightAlign (w : Nat) (s : String) : String := ⟨List.replicate (w - s.length) ' '⟩ ++ s

/-- Left zero-padding to a given width (for the fractional digits). -/
def padZeros (w : Nat) (s : String) : String := ⟨List.replicate (w - s.length) '0'⟩ ++ s

/-- Round half to even, the rounding applied when a value is formatted with a
fixed number of decimals. -/
def roundHalfEven (q : ℚ) : Int :=
  if q - ⌊q⌋ < 1 / 2 then ⌊q⌋
  else if 1 / 2 < q - ⌊q⌋ then ⌊q⌋ + 1
  else if 2 ∣ ⌊q⌋ then ⌊q⌋ else ⌊q⌋ + 1

/-- Fixed-point formatting with exactly six decimals (the seconds column). -/
def fmt6 (q : ℚ) : String :=
  let n := roundHalfEven (q * 1000000)
  let sgn := if n < 0 then "-" else ""
  sgn ++ decRepr (n.natAbs / 1000000) ++ "." ++ padZeros 6 (decRepr (n.natAbs % 1000000))

/-- One printed row: `int(round(100 * (base_seconds - seconds) / base_seconds))`
right-aligned in a width-6 minimum field, a percent sign, two spaces, the
seconds with six decimals, two spaces, the case name. -/
def rowStr (base : ℚ) (p : ℚ × String) : String :=
  rightAlign 6 (intRepr (pyRound (100 * (base - p.1) / base))) ++ "%  " ++ fmt6 p.1 ++ "  " ++ p.2

/-- The table header line. -/
def headerLine : String := "speedup   seconds  option"

/-- The lines printed for one condition: the blank line and the condition
label produced by printing the env string, the header, then one row per sorted
Result Entry, all normalised by base_seconds (which is never `None`, since
`tests` is nonempty; `getD` only discharges the `Option`). -/
def condLines (e : String) (tm : TCase → ℚ) : List String :=
  ["", e ++ ":", headerLine] ++ (sortedResults tm).map (rowStr ((condBase tm).getD 0))

/-- All lines written to standard output by `main`, given the measured totals
`tm exists_ c` of each (condition, case) pair.  The Result Entry accumulator
and base_seconds are reset at the start of each condition. -/
def mainLines (tm : Bool → TCase → ℚ) : List String :=
  (envs.map (fun e => condLines e (tm (envFlag e)))).flatten

/-- Value of a decimal digit string (proof helper: a left inverse of
`decDigits`, used to prove injectivity of the fixture keys). -/
def decVal (l : List Char) : Nat := l.foldl (fun a c => 10 * a + (c.toNat - 48)) 0

/-- Example measured totals: the first-declared case (setdefault) takes 2 s
and a faster case (defaultdict, 1 s) exists. -/
def tmW2 : TCase → ℚ
  | TCase.setdefault => 2
  | TCase.defaultdict => 1
  | TCase.notIn => 3
  | TCase.inElse => 4
  | TCase.get => 5
  | TCase.tryK => 6

/-- Example measured totals with an extreme ratio: the "try" case takes 20001
times the baseline second count. -/
def tmW4 : TCase → ℚ
  | TCase.setdefault => 1
  | TCase.defaultdict => 2
  | TCase.notIn => 3
  | TCase.inElse => 4
  | TCase.get => 5
  | TCase.tryK => 20001

/-- Example measured totals for both conditions: every case takes 1 s. -/
def tmW8 : Bool → TCase → ℚ := fun _ _ => 1

/-! ### Lemmas: decimal strings and the fixture keys -/

lemma digitChar_toNat : ∀ d < 10, (digitChar d).toNat = 48 + d := by decide

lemma decVal_append_digit (l : List Char) (c : Char) :
    decVal (l ++ [c]) = 10 * decVal l + (c.toNat - 48) := by
  simp [decVal, List.foldl_append]

lemma decVal_decDigitsAux : ∀ (fuel n : Nat), n < fuel → decVal (decDigitsAux fuel n) = n := by
  intro fuel
  induction fuel with
  | zero => intro n hn; omega
  | succ f ih =>
    intro n hn
    rw [decDigitsAux]
    by_cases h10 : n < 10
    · simp only [if_pos h10]
      have := digitChar_toNat n h10
      simp [decVal, this]
    · simp only [if_neg h10]
      rw [decVal_append_digit]
      have hdiv : n / 10 < f := by
        have h1 : n / 10 < n := Nat.div_lt_self (by omega) (by omega)
        omega
      rw [ih (n / 10) hdiv]
      have hmod : n % 10 < 10 := Nat.mod_lt _ (by omega)
      rw [digitChar_toNat (n % 10) hmod]
      omega

lemma decVal_decDigits (n : Nat) : decVal (decDigits n) = n :=
  decVal_decDigitsAux (n + 1) n (Nat.lt_succ_self n)

lemma decDigits_inj {i j : Nat} (h : decDigits i = decDigits j) : i = j := by
  have := decVal_decDigits i
  rw [h, decVal_decDigits] at this
  omega

lemma mkKey_inj {i j : Nat} (h : mkKey i = mkKey j) : i = j := by
  have hd : 'k' :: decDigits i = 'k' :: decDigits j := congrArg String.data h
  exact decDigits_inj (List.cons.injEq _ _ _ _ ▸ hd).2

lemma fixtureOuter_mkKey : ∀ n i, i < n → fixtureOuter n (mkKey i) = some i := by
  intro n
  induction n with
  | zero => intro i hi; omega
  | succ m ih =>
    intro i hi
    rw [fixtureOuter, outerSet]
    by_cases him : i = m
    · subst him; simp
    · have : mkKey i ≠ mkKey m := fun e => him (mkKey_inj e)
      simp only [if_neg this]
      exact ih i (by omega)

lemma d1_k1 : d1 "k1" = some 1 := by
  have hk : mkKey 1 = "k1" := by decide
  have := fixtureOuter_mkKey (10 ^ 6) 1 (by norm_num)
  rw [hk] at this
  exact this

/-! ### Lemmas: inner dict assignment -/

lemma innerSet_nil (k v : String) : innerSet [] k v = [(k, v)] := rfl

lemma innerSet_any (m : Inner) (k v : String) :
    (innerSet m k v).any (fun p => p.1 == k) = true := by
  unfold innerSet
  by_cases h : m.any (fun p => p.1 == k) = true
  · simp only [if_pos h]
    rcases List.any_eq_true.mp h with ⟨p, hp, hpk⟩
    have hpk2 : p.1 = k := by simpa using hpk
    refine List.any_eq_true.mpr ⟨(k, v), List.mem_map.mpr ⟨p, hp, ?_⟩, by simp⟩
    simp [hpk2]
  · simp only [if_neg h]
    refine List.any_eq_true.mpr ⟨(k, v), by simp, by simp⟩

lemma innerSet_idem (m : Inner) (k v : String) :
    innerSet (innerSet m k v) k v = innerSet m k v := by
  have hmem := innerSet_any m k v
  conv_lhs => rw [innerSet]
  rw [if_pos hmem]
  unfold innerSet
  by_cases h : m.any (fun p => p.1 == k) = true
  · simp only [if_pos h]
    rw [List.map_map]
    refine List.map_congr_left ?_
    intro p _
    by_cases hpk : p.1 = k
    · simp [Function.comp, hpk]
    · simp [Function.comp, hpk]
  · simp only [if_neg h]
    rw [List.map_append]
    have hmap : m.map (fun p => if p.1 = k then (k, v) else p) = m := by
      conv_rhs => rw [← List.map_id m]
      refine List.map_congr_left ?_
      intro p hp
      have h2 : m.any (fun q => q.1 == k) = false := by
        revert h; cases m.any (fun q => q.1 == k) <;> simp
      have hpk := List.any_eq_false.mp h2 p hp
      have hpk2 : ¬p.1 = k := by simpa using hpk
      simp [hpk2]
    simp [hmap]

/-! ### Lemmas: one measured fragment, key absent / key present -/

lemma measure_absent (c : TCase) (s : DState)
    (h : s.map "k1" = none) (hdd : c = TCase.defaultdict → s.dd = true) :
    ∃ t, measure c s = some t ∧
      t.map "k1" = some s.heap.next ∧
      (∀ k, k = "k1" ∨ t.map k = s.map k) ∧
      t.dd = s.dd ∧
      t.heap.next = s.heap.next + 1 ∧
      t.heap.store s.heap.next = some [("k2", "v")] ∧
      (∀ b, b < s.heap.next → t.heap.store b = s.heap.store b) := by
  cases c with
  | setdefault =>
    simp only [measure, measSetdefault, Heap.alloc, h]
    refine ⟨_, rfl, ?_, ?_, ?_, ?_, ?_, ?_⟩
    · simp [outerSet]
    · intro k
      by_cases hk : k = "k1"
      · exact Or.inl hk
      · exact Or.inr (by simp [outerSet, hk])
    · rfl
    · simp [Heap.write]
    · simp [Heap.write, innerSet]
    · intro b hb
      simp [Heap.write, Nat.ne_of_lt hb]
  | defaultdict =>
    have hddt : s.dd = true := hdd rfl
    simp only [measure, indexAssign, dGet, h, hddt, if_pos, Heap.alloc]
    refine ⟨_, rfl, ?_, ?_, ?_, ?_, ?_, ?_⟩
    · simp [outerSet]
    · intro k
      by_cases hk : k = "k1"
      · exact Or.inl hk
      · exact Or.inr (by simp [outerSet, hk])
    · rfl
    · simp [Heap.write]
    · simp [Heap.write, innerSet]
    · intro b hb
      simp [Heap.write, Nat.ne_of_lt hb]
  | notIn =>
    simp only [measure, measNotIn, h, Option.isNone_none, if_pos, Heap.alloc, indexAssign, dGet,
      outerSet, if_pos rfl]
    refine ⟨_, rfl, ?_, ?_, ?_, ?_, ?_, ?_⟩
    · simp [outerSet]
    · intro k
      by_cases hk : k = "k1"
      · exact Or.inl hk
      · exact Or.inr (by simp [outerSet, hk, h])
    · rfl
    · simp [Heap.write]
    · simp [Heap.write, innerSet]
    · intro b hb
      simp [Heap.write, Nat.ne_of_lt hb]
  | inElse =>
    simp only [measure, measInElse, h, Heap.alloc]
    refine ⟨_, rfl, ?_, ?_, ?_, ?_, ?_, ?_⟩
    · simp [outerSet]
    · intro k
      by_cases hk : k = "k1"
      · exact Or.inl hk
      · exact Or.inr (by simp [outerSet, hk])
    · rfl
    · rfl
    · simp
    · intro b hb
      simp [Nat.ne_of_lt hb]
  | get =>
    simp only [measure, measGet, h, Heap.alloc]
    refine ⟨_, rfl, ?_, ?_, ?_, ?_, ?_, ?_⟩
    · simp [outerSet]
    · intro k
      by_cases hk : k = "k1"
      · exact Or.inl hk
      · exact Or.inr (by simp [outerSet, hk])
    · rfl
    · rfl
    · simp
    · intro b hb
      simp [Nat.ne_of_lt hb]
  | tryK =>
    by_cases hddt : s.dd = true
    · simp only [measure, measTry, indexAssign, dGet, h, hddt, if_pos, Heap.alloc]
      refine ⟨_, rfl, ?_, ?_, ?_, ?_, ?_, ?_⟩
      · simp [outerSet]
      · intro k
        by_cases hk : k = "k1"
        · exact Or.inl hk
        · exact Or.inr (by simp [outerSet, hk])
      · rfl
      · simp [Heap.write]
      · simp [Heap.write, innerSet]
      · intro b hb
        simp [Heap.write, Nat.ne_of_lt hb]
    · have hddf : s.dd = false := by revert hddt; cases s.dd <;> simp
      simp only [measure, measTry, indexAssign, dGet, h, hddf, Bool.false_eq_true, if_neg,
        Heap.alloc]
      refine ⟨_, rfl, ?_, ?_, ?_, ?_, ?_, ?_⟩
      · simp [outerSet]
      · intro k
        by_cases hk : k = "k1"
        · exact Or.inl hk
        · exact Or.inr (by simp [outerSet, hk])
      · rfl
      · rfl
      · simp
      · intro b hb
        simp [Nat.ne_of_lt hb]

lemma measure_present (c : TCase) (s : DState) (a : Nat) (m : Inner)
    (hk : s.map "k1" = some a) (ha : a < s.heap.next) (hm : s.heap.store a = some m) :
    ∃ t, measure c s = some t ∧
      t.map = s.map ∧ t.dd = s.dd ∧
      s.heap.next ≤ t.heap.next ∧
      t.heap.store a = some (innerSet m "k2" "v") ∧
      (∀ b, b ≠ a → b < s.heap.next → t.heap.store b = s.heap.store b) := by
  have hna : a ≠ s.heap.next := Nat.ne_of_lt ha
  cases c with
  | setdefault =>
    simp only [measure, measSetdefault, Heap.alloc, hk]
    refine ⟨_, rfl, rfl, rfl, ?_, ?_, ?_⟩
    · simp [Heap.write]
    · simp [Heap.write, hna, hm]
    · intro b hb hbn
      simp [Heap.write, hb, Nat.ne_of_lt hbn]
  | defaultdict =>
    simp only [measure, indexAssign, dGet, hk]
    refine ⟨_, rfl, rfl, rfl, le_refl _, ?_, ?_⟩
    · simp [Heap.write, hm]
    · intro b hb _
      simp [Heap.write, hb]
  | notIn =>
    have e : measure TCase.notIn s = indexAssign s := by
      simp [measure, measNotIn, hk]
    rw [e]
    simp only [indexAssign, dGet, hk]
    refine ⟨_, rfl, rfl, rfl, le_refl _, ?_, ?_⟩
    · simp [Heap.write, hm]
    · intro b hb _
      simp [Heap.write, hb]
  | inElse =>
    simp only [measure, measInElse, hk]
    refine ⟨_, rfl, rfl, rfl, le_refl _, ?_, ?_⟩
    · simp [Heap.write, hm]
    · intro b hb _
      simp [Heap.write, hb]
  | get =>
    simp only [measure, measGet, hk]
    refine ⟨_, rfl, rfl, rfl, le_refl _, ?_, ?_⟩
    · simp [Heap.write, hm]
    · intro b hb _
      simp [Heap.write, hb]
  | tryK =>
    simp only [measure, measTry, indexAssign, dGet, hk]
    refine ⟨_, rfl, rfl, rfl, le_refl _, ?_, ?_⟩
    · simp [Heap.write, hm]
    · intro b hb _
      simp [Heap.write, hb]

/-! ### Lemmas: one iteration and the timed loop -/

lemma initEach_true (s : DState) : initEach true s = some s := rfl

lemma initEach_false_del (s : DState) (a : Nat) (hk : s.map "k1" = some a) :
    initEach false s = some
      { s with map := fun x => if x = "k1" then none else s.map x } := by
  simp [initEach, pyDel, hk]

lemma iterStep_false (c : TCase) (s : DState) (a : Nat)
    (hk : s.map "k1" = some a) (hdd : c = TCase.defaultdict → s.dd = true) :
    ∃ t, iterStep false c s = some t ∧
      t.map "k1" = some s.heap.next ∧
      (∀ k, k = "k1" ∨ t.map k = s.map k) ∧
      t.dd = s.dd ∧
      t.heap.next = s.heap.next + 1 ∧
      t.heap.store s.heap.next = some [("k2", "v")] ∧
      (∀ b, b < s.heap.next → t.heap.store b = s.heap.store b) := by
  rw [iterStep, initEach_false_del s a hk, Option.some_bind]
  set sd : DState := { s with map := fun x => if x = "k1" then none else s.map x } with hsd
  have hnone : sd.map "k1" = none := by simp [hsd]
  have hdd2 : c = TCase.defaultdict → sd.dd = s.dd := fun _ => rfl
  obtain ⟨t, e, h1, h2, h3, h4, h5, h6⟩ :=
    measure_absent c sd hnone (fun hc => (hdd2 hc).trans (hdd hc))
  refine ⟨t, e, h1, ?_, h3, h4, h5, h6⟩
  intro k
  rcases h2 k with hk1 | hkk
  · exact Or.inl hk1
  · by_cases hk1 : k = "k1"
    · exact Or.inl hk1
    · exact Or.inr (by rw [hkk]; simp [hsd, hk1])

lemma iterStep_true (c : TCase) (s : DState) (a : Nat) (m : Inner)
    (hk : s.map "k1" = some a) (ha : a < s.heap.next) (hm : s.heap.store a = some m) :
    ∃ t, iterStep true c s = some t ∧
      t.map = s.map ∧ t.dd = s.dd ∧
      s.heap.next ≤ t.heap.next ∧
      t.heap.store a = some (innerSet m "k2" "v") ∧
      (∀ b, b ≠ a → b < s.heap.next → t.heap.store b = s.heap.store b) := by
  rw [iterStep, initEach_true, Option.some_bind]
  exact measure_present c s a m hk ha hm

lemma runIters_false (c : TCase) : ∀ (n : Nat) (s : DState) (a : Nat),
    s.map "k1" = some a → (c = TCase.defaultdict → s.dd = true) →
    ∃ t, runIters false c n s = some t ∧
      (∃ a2, t.map "k1" = some a2) ∧
      (∀ k, k = "k1" ∨ t.map k = s.map k) ∧
      t.dd = s.dd ∧
      s.heap.next ≤ t.heap.next ∧
      (∀ b, b < s.heap.next → t.heap.store b = s.heap.store b) := by
  intro n
  induction n with
  | zero =>
    intro s a hk _
    exact ⟨s, rfl, ⟨a, hk⟩, fun k => Or.inr rfl, rfl, le_refl _, fun b _ => rfl⟩
  | succ n ih =>
    intro s a hk hdd
    obtain ⟨t1, e1, hk1, hmap1, hdd1, hnext1, hst1, hfr1⟩ := iterStep_false c s a hk hdd
    obtain ⟨t, e, hk2, hmap2, hdd2, hle2, hfr2⟩ :=
      ih t1 s.heap.next hk1 (fun hc => hdd1.trans (hdd hc))
    refine ⟨t, ?_, hk2, ?_, hdd2.trans hdd1, ?_, ?_⟩
    · rw [runIters, e1, Option.some_bind, e]
    · intro k
      rcases hmap2 k with h | h
      · exact Or.inl h
      · rcases hmap1 k with h2 | h2
        · exact Or.inl h2
        · exact Or.inr (h.trans h2)
    · omega
    · intro b hb
      rw [hfr2 b (by omega), hfr1 b hb]

lemma runIters_true (c : TCase) : ∀ (n : Nat) (s : DState) (a : Nat) (m : Inner),
    s.map "k1" = some a → a < s.heap.next → s.heap.store a = some m →
    ∃ t, runIters true c (n + 1) s = some t ∧
      t.map = s.map ∧ t.dd = s.dd ∧
      s.heap.next ≤ t.heap.next ∧
      t.heap.store a = some (innerSet m "k2" "v") ∧
      (∀ b, b ≠ a → b < s.heap.next → t.heap.store b = s.heap.store b) := by
  intro n
  induction n with
  | zero =>
    intro s a m hk ha hm
    obtain ⟨t, e, h1, h2, h3, h4, h5⟩ := iterStep_true c s a m hk ha hm
    exact ⟨t, by rw [runIters, e, Option.some_bind, runIters], h1, h2, h3, h4, h5⟩
  | succ n ih =>
    intro s a m hk ha hm
    obtain ⟨t1, e1, hmap1, hdd1, hle1, hst1, hfr1⟩ := iterStep_true c s a m hk ha hm
    obtain ⟨t, e, hmap2, hdd2, hle2, hst2, hfr2⟩ :=
      ih t1 a (innerSet m "k2" "v") (hmap1 ▸ hk) (by omega) hst1
    refine ⟨t, ?_, hmap2.trans hmap1, hdd2.trans hdd1, by omega, ?_, ?_⟩
    · rw [runIters, e1, Option.some_bind]
      exact e
    · rw [hst2, innerSet_idem]
    · intro b hb hbn
      rw [hfr2 b hb (by omega), hfr1 b hb hbn]

/-! ### Lemmas: whole-condition and whole-run heap evolution -/

lemma initOnce_map (c : TCase) (h : Heap) : (initOnce c h).map = d1 := rfl

lemma initOnce_dd (c : TCase) (h : Heap) (hc : c = TCase.defaultdict) :
    (initOnce c h).dd = true := by
  simp [initOnce, hc]

lemma runTests_false_frame (rep : TCase → Nat) :
    ∀ (cs : List TCase) (h : Heap), 10 ^ 6 ≤ h.next →
      ∃ h2, runTests false rep cs h = some h2 ∧ 10 ^ 6 ≤ h2.next ∧
        ∀ b, b < 10 ^ 6 → h2.store b = h.store b := by
  intro cs
  induction cs with
  | nil => exact fun h hn => ⟨h, rfl, hn, fun b _ => rfl⟩
  | cons c cs ih =>
    intro h hn
    have hk : (initOnce c h).map "k1" = some 1 := by rw [initOnce_map]; exact d1_k1
    have hh : (initOnce c h).heap = h := rfl
    obtain ⟨t, e, _, _, _, hle, hfr⟩ :=
      runIters_false c (rep c) (initOnce c h) 1 hk (initOnce_dd c h)
    rw [hh] at hle hfr
    obtain ⟨h2, e2, hn2, hfr2⟩ := ih t.heap (le_trans hn hle)
    refine ⟨h2, ?_, hn2, ?_⟩
    · rw [runTests, runTest, e, Option.some_bind, e2]
    · intro b hb
      rw [hfr2 b hb, hfr b (by omega)]

lemma runTests_true_frame (rep : TCase → Nat) (hrep : ∀ c, 1 ≤ rep c) :
    ∀ (cs : List TCase) (h : Heap) (m : Inner), 10 ^ 6 ≤ h.next → h.store 1 = some m →
      ∃ h2, runTests true rep cs h = some h2 ∧ 10 ^ 6 ≤ h2.next ∧
        h2.store 1 = some (if cs.isEmpty then m else innerSet m "k2" "v") ∧
        ∀ b, b ≠ 1 → b < 10 ^ 6 → h2.store b = h.store b := by
  intro cs
  induction cs with
  | nil => exact fun h m hn hm => ⟨h, rfl, hn, by simpa using hm, fun b _ _ => rfl⟩
  | cons c cs ih =>
    intro h m hn hm
    have hk : (initOnce c h).map "k1" = some 1 := by rw [initOnce_map]; exact d1_k1
    have hh : (initOnce c h).heap = h := rfl
    obtain ⟨r, hr⟩ : ∃ r, rep c = r + 1 := ⟨rep c - 1, by have := hrep c; omega⟩
    obtain ⟨t, e, _, _, hle, hst, hfr⟩ :=
      runIters_true c r (initOnce c h) 1 m hk (by rw [hh]; omega) (by rw [hh]; exact hm)
    rw [hh] at hle hfr
    obtain ⟨h2, e2, hn2, hst2, hfr2⟩ :=
      ih t.heap (innerSet m "k2" "v") (le_trans hn hle) hst
    refine ⟨h2, ?_, hn2, ?_, ?_⟩
    · rw [runTests, runTest, hr, e, Option.some_bind, e2]
    · rw [hst2]
      cases cs with
      | nil => simp
      | cons c2 cs2 => simp [innerSet_idem]
    · intro b hb hblt
      rw [hfr2 b hb hblt, hfr b hb (by omega)]

lemma runMain_spec (rep : TCase → Nat) (hrep : ∀ c, 1 ≤ rep c) :
    ∃ h, runMain rep = some h ∧
      h.store 1 = some [("k2", "v")] ∧
      (∀ b, b ≠ 1 → b < 10 ^ 6 → h.store b = some []) ∧
      10 ^ 6 ≤ h.next := by
  obtain ⟨hF, eF, hnF, hfrF⟩ :=
    runTests_false_frame rep tcases heap0 (le_refl _)
  have hstF : hF.store 1 = some [] := by
    rw [hfrF 1 (by norm_num)]
    norm_num [heap0]
  obtain ⟨hT, eT, hnT, hstT, hfrT⟩ :=
    runTests_true_frame rep hrep tcases hF [] hnF hstF
  refine ⟨hT, ?_, ?_, ?_, hnT⟩
  · rw [runMain, eF, Option.some_bind, eT]
  · rw [hstT]; rfl
  · intro b hb hblt
    rw [hfrT b hb hblt, hfrF b hblt]
    have hblt2 : b < 1000000 := by norm_num at hblt; exact hblt
    simp [heap0, hblt2]

lemma repeatOf_eq (c : TCase) : repeatOf c = 10 ^ 6 := by
  cases c <;> rfl

lemma one_le_repeatOf (c : TCase) : 1 ≤ repeatOf c := by
  rw [repeatOf_eq]; norm_num

/-! ### Claim C1 -/

/-- C1 counterexample: the Fixture Mapping is NOT left unchanged.  In the
actual run (each test at its configured repeat count), the inner mapping
object at address 1 — i.e. the inner dict that `d1` holds at key `"k1"` — ends
the run holding `{'k2': 'v'}`, although it was empty when `d1` was built: the
shallow copy shares inner objects and the `exists = True` condition mutates
the shared one at `k1`. -/
theorem c1_spec_counterexample :
    (runMain repeatOf).map (fun h => h.store 1) = some (some [("k2", "v")]) ∧
    heap0.store 1 = some [] ∧ d1 "k1" = some 1 ∧ ([("k2", "v")] : Inner) ≠ [] := by
  obtain ⟨h, e, hst, _, _⟩ := runMain_spec repeatOf one_le_repeatOf
  refine ⟨?_, by norm_num [heap0], d1_k1, by simp⟩
  rw [e]
  simp [hst]

/-- C1 (amended): the top-level mapping `d1` is never rebound or mutated (in
the model the working copy's key graph is rebuilt by each `init_once`, leaving
the constant `d1` untouched), and every inner mapping of the fixture other
than the one at key `"k1"` (address 1) is unchanged at the end of the run; but
the inner mapping at `"k1"`, shared with every shallow working copy, IS
mutated: under the `exists = True` condition each measured fragment writes
`'k2' -> 'v'` into it, so it ends the run as `{'k2': 'v'}`, not `{}`. -/
theorem c1_amended_inner_k1_mutated (rep : TCase → Nat) (hrep : ∀ c, 1 ≤ rep c) :
    ∃ h, runMain rep = some h ∧
      h.store 1 = some [("k2", "v")] ∧
      (∀ b, b ≠ 1 → b < 10 ^ 6 → h.store b = some []) ∧
      d1 "k1" = some 1 := by
  obtain ⟨h, e, h1, h2, _⟩ := runMain_spec rep hrep
  exact ⟨h, e, h1, h2, d1_k1⟩

/-- C1 witness: the amended statement at the concrete repeat counts of the
script (10^6 iterations for every test). -/
theorem c1_amended_witness :
    (∀ c, 1 ≤ repeatOf c) ∧
    ∃ h, runMain repeatOf = some h ∧
      h.store 1 = some [("k2", "v")] ∧
      (∀ b, b ≠ 1 → b < 10 ^ 6 → h.store b = some []) ∧
      d1 "k1" = some 1 :=
  ⟨one_le_repeatOf, c1_amended_inner_k1_mutated repeatOf one_le_repeatOf⟩

/-! ### Claim C5 -/

/-- C5: with repeat = 3, condition `exists = False`, case "not in": every one
of the three iterations first deletes `k1` (present at the iteration start),
then observes `k1` absent, then establishes `d[k1] = {'k2': 'v'}` at a fresh
address; after the three iterations the working copy maps `k1` to a mapping
equal to `{'k2': 'v'}` and every other key exactly as in `d1`, and every
fixture inner mapping (addresses below 10^6, all `{}`) is untouched. -/
theorem c5_not_in_three_iterations :
    ∃ sd1 s1 sd2 s2 sd3 s3,
      initEach false (initOnce TCase.notIn heap0) = some sd1 ∧ sd1.map "k1" = none ∧
      measure TCase.notIn sd1 = some s1 ∧
        s1.map "k1" = some (10 ^ 6) ∧ s1.heap.store (10 ^ 6) = some [("k2", "v")] ∧
      initEach false s1 = some sd2 ∧ sd2.map "k1" = none ∧
      measure TCase.notIn sd2 = some s2 ∧
        s2.map "k1" = some (10 ^ 6 + 1) ∧ s2.heap.store (10 ^ 6 + 1) = some [("k2", "v")] ∧
      initEach false s2 = some sd3 ∧ sd3.map "k1" = none ∧
      measure TCase.notIn sd3 = some s3 ∧
        s3.map "k1" = some (10 ^ 6 + 2) ∧ s3.heap.store (10 ^ 6 + 2) = some [("k2", "v")] ∧
      runIters false TCase.notIn 3 (initOnce TCase.notIn heap0) = some s3 ∧
      (∀ k, k = "k1" ∨ s3.map k = d1 k) ∧
      (∀ b, 10 ^ 6 ≤ b ∨ s3.heap.store b = heap0.store b) ∧
      (∀ b, 10 ^ 6 ≤ b ∨ heap0.store b = some []) := by
  have hnd : TCase.notIn = TCase.defaultdict → False := by decide
  set s0 := initOnce TCase.notIn heap0 with hs0
  have hk0 : s0.map "k1" = some 1 := by rw [hs0, initOnce_map]; exact d1_k1
  -- iteration 1
  have e1 := initEach_false_del s0 1 hk0
  set sd1 : DState := { s0 with map := fun x => if x = "k1" then none else s0.map x } with hsd1
  have hd1 : sd1.map "k1" = none := by simp [hsd1]
  obtain ⟨s1, em1, hk1, hmap1, hdd1, hnx1, hst1, hfr1⟩ :=
    measure_absent TCase.notIn sd1 hd1 (fun hc => absurd hc (by decide))
  have hnx0 : sd1.heap.next = 10 ^ 6 := rfl
  rw [hnx0] at hk1 hnx1 hst1
  -- iteration 2
  have e2 := initEach_false_del s1 (10 ^ 6) hk1
  set sd2 : DState := { s1 with map := fun x => if x = "k1" then none else s1.map x } with hsd2
  have hd2 : sd2.map "k1" = none := by simp [hsd2]
  obtain ⟨s2, em2, hk2, hmap2, hdd2, hnx2, hst2, hfr2⟩ :=
    measure_absent TCase.notIn sd2 hd2 (fun hc => absurd hc (by decide))
  have hnx1' : sd2.heap.next = 10 ^ 6 + 1 := hnx1
  rw [hnx1'] at hk2 hnx2 hst2
  -- iteration 3
  have e3 := initEach_false_del s2 (10 ^ 6 + 1) hk2
  set sd3 : DState := { s2 with map := fun x => if x = "k1" then none else s2.map x } with hsd3
  have hd3 : sd3.map "k1" = none := by simp [hsd3]
  obtain ⟨s3, em3, hk3, hmap3, hdd3, hnx3, hst3, hfr3⟩ :=
    measure_absent TCase.notIn sd3 hd3 (fun hc => absurd hc (by decide))
  have hnx2' : sd3.heap.next = 10 ^ 6 + 2 := hnx2
  rw [hnx2'] at hk3 hnx3 hst3
  refine ⟨sd1, s1, sd2, s2, sd3, s3, e1, hd1, em1, hk1, hst1, e2, hd2, em2, hk2, hst2,
    e3, hd3, em3, hk3, hst3, ?_, ?_, ?_, ?_⟩
  · show runIters false TCase.notIn 3 s0 = some s3
    rw [show (3 : Nat) = 2 + 1 from rfl, runIters, iterStep, e1, Option.some_bind, em1,
      Option.some_bind]
    rw [show (2 : Nat) = 1 + 1 from rfl, runIters, iterStep, e2, Option.some_bind, em2,
      Option.some_bind]
    rw [runIters, iterStep, e3, Option.some_bind, em3, Option.some_bind, runIters]
  · intro k
    by_cases hk : k = "k1"
    · exact Or.inl hk
    · refine Or.inr ?_
      rcases hmap3 k with h | h
      · exact absurd h hk
      · rcases hmap2 k with h2 | h2
        · exact absurd h2 hk
        · rcases hmap1 k with h3 | h3
          · exact absurd h3 hk
          · rw [h, show sd3.map k = s2.map k from by simp [hsd3, hk], h2,
              show sd2.map k = s1.map k from by simp [hsd2, hk], h3,
              show sd1.map k = s0.map k from by simp [hsd1, hk]]
            rfl
  · intro b
    by_cases hb : b < 10 ^ 6
    · refine Or.inr ?_
      rw [hfr3 b (by omega), show sd3.heap = s2.heap from rfl,
        hfr2 b (by omega), show sd2.heap = s1.heap from rfl,
        hfr1 b (by rw [hnx0]; omega)]
      rfl
    · exact Or.inl (by omega)
  · intro b
    by_cases hb : b < 10 ^ 6
    · have hb2 : b < 1000000 := by norm_num at hb; exact hb
      exact Or.inr (by simp [heap0, hb2])
    · exact Or.inl (by omega)

/-! ### Claim C6 -/

/-- C6: for the "setdefault" case under `exists = True`, after every positive
number of iterations the working copy still binds `k1` to the same inner
object (address 1, the one shared with `d1` — the object identity is never
replaced), and that object holds `'k2' -> 'v'`.  The whole binding `d` is the
unchanged shallow copy of `d1`. -/
theorem c6_setdefault_identity (n : Nat) :
    ∃ t, runIters true TCase.setdefault (n + 1) (initOnce TCase.setdefault heap0) = some t ∧
      t.map "k1" = some 1 ∧
      t.heap.store 1 = some [("k2", "v")] ∧
      t.map = d1 := by
  obtain ⟨t, e, hmap, _, _, hst, _⟩ :=
    runIters_true TCase.setdefault n (initOnce TCase.setdefault heap0) 1 []
      (by rw [initOnce_map]; exact d1_k1) (by norm_num [initOnce, heap0])
      (by norm_num [initOnce, heap0])
  refine ⟨t, e, ?_, ?_, hmap⟩
  · rw [hmap, initOnce_map]; exact d1_k1
  · rw [hst]; rfl

/-! ### Claim C10 -/

/-- C10: under `exists = False` the per-iteration `del d[k1]` never fails:
`"k1"` is a key of the fixture (`d1` maps it to address 1, since the key set
is `'k' + str(i)` for `i` below 10^6), and for each of the six cases, after
any number of iterations the loop has succeeded (no `KeyError` was raised by
any `del` or subscript) with `k1` present again in the working copy — each
measured fragment re-inserts `k1` before the next deletion. -/
theorem c10_del_always_succeeds :
    d1 "k1" = some 1 ∧
    ∀ (c : TCase) (n : Nat), ∃ t,
      runIters false c n (initOnce c heap0) = some t ∧ (t.map "k1").isSome = true := by
  refine ⟨d1_k1, ?_⟩
  intro c n
  obtain ⟨t, e, ⟨a2, ha2⟩, _⟩ :=
    runIters_false c n (initOnce c heap0) 1 (by rw [initOnce_map]; exact d1_k1)
      (initOnce_dd c heap0)
  exact ⟨t, e, by simp [ha2]⟩

/-! ### Lemmas: the results pipeline -/

lemma condResults_eq (tm : TCase → ℚ) :
    condResults tm = tcases.map (fun c => (tm c, tname c)) := rfl

lemma condBase_eq (tm : TCase → ℚ) : condBase tm = some (tm TCase.setdefault) := rfl

lemma condLines_eq (e : String) (tm : TCase → ℚ) :
    condLines e tm = ["", e ++ ":", headerLine] ++
      (sortedResults tm).map (rowStr (tm TCase.setdefault)) := rfl

lemma mainLines_eq (tm : Bool → TCase → ℚ) :
    mainLines tm =
      condLines "exists = False" (tm false) ++ condLines "exists = True" (tm true) := by
  have h1 : envFlag "exists = False" = false := rfl
  have h2 : envFlag "exists = True" = true := rfl
  simp [mainLines, envs, h1, h2]

lemma pairLe_iff (a b : ℚ × String) :
    pairLe a b = true ↔ (a.1 < b.1 ∨ (a.1 = b.1 ∧ a.2 ≤ b.2)) := by
  simp [pairLe]

lemma pairLe_trans (a b c : ℚ × String) (h1 : pairLe a b) (h2 : pairLe b c) : pairLe a c := by
  rw [pairLe_iff] at h1 h2 ⊢
  rcases h1 with h1 | ⟨h1, h1s⟩ <;> rcases h2 with h2 | ⟨h2, h2s⟩
  · exact Or.inl (lt_trans h1 h2)
  · exact Or.inl (h2 ▸ h1)
  · exact Or.inl (h1 ▸ h2)
  · exact Or.inr ⟨h1.trans h2, le_trans h1s h2s⟩

lemma pairLe_total (a b : ℚ × String) : pairLe a b || pairLe b a := by
  rcases lt_trichotomy a.1 b.1 with h | h | h
  · simp [pairLe_iff, h]
  · rcases le_total a.2 b.2 with hs | hs
    · simp [pairLe_iff, h, hs]
    · simp [pairLe_iff, h.symm, hs]
  · simp [pairLe_iff, h]

lemma pairLe_antisymm (a b : ℚ × String) (h1 : pairLe a b = true) (h2 : pairLe b a = true) :
    a = b := by
  rw [pairLe_iff] at h1 h2
  rcases h1 with h1 | ⟨h1, h1s⟩ <;> rcases h2 with h2 | ⟨h2, h2s⟩
  · exact absurd h2 (lt_asymm h1)
  · exact absurd h1 (h2 ▸ lt_irrefl _)
  · exact absurd h2 (h1 ▸ lt_irrefl _)
  · exact Prod.ext h1 (le_antisymm h1s h2s)

lemma pairLe_fst {a b : ℚ × String} (h : pairLe a b = true) : a.1 ≤ b.1 := by
  rw [pairLe_iff] at h
  rcases h with h | ⟨h, _⟩
  · exact le_of_lt h
  · exact le_of_eq h

lemma sortedResults_perm (tm : TCase → ℚ) :
    List.Perm (sortedResults tm) (condResults tm) :=
  List.mergeSort_perm (condResults tm) pairLe

lemma sortedResults_pairwise (tm : TCase → ℚ) :
    (sortedResults tm).Pairwise (fun p q => pairLe p q = true) :=
  List.sorted_mergeSort (fun a b c => pairLe_trans a b c) pairLe_total (condResults tm)

lemma sortedResults_eq_of_sorted (tm : TCase → ℚ) (l : List (ℚ × String))
    (hp : List.Perm (condResults tm) l)
    (hs : l.Pairwise (fun p q => pairLe p q = true)) :
    sortedResults tm = l :=
  @List.eq_of_perm_of_sorted _ _ ⟨fun a b => pairLe_antisymm a b⟩ _ _
    ((sortedResults_perm tm).trans hp) (sortedResults_pairwise tm) hs

/-! ### Lemmas: rounding and formatting -/

lemma pyRound_zero : pyRound 0 = 0 := by norm_num [pyRound]

lemma pyRound_close (q : ℚ) : |q - (pyRound q : ℚ)| ≤ 1 / 2 := by
  rw [pyRound]
  by_cases h : q < 0
  · rw [if_pos h]
    have h1 : (⌊-q + 1 / 2⌋ : ℚ) ≤ -q + 1 / 2 := Int.floor_le _
    have h2 : -q + 1 / 2 < ⌊-q + 1 / 2⌋ + 1 := Int.lt_floor_add_one _
    rw [abs_le]
    constructor <;> push_cast <;> linarith
  · rw [if_neg h]
    have h1 : (⌊q + 1 / 2⌋ : ℚ) ≤ q + 1 / 2 := Int.floor_le _
    have h2 : q + 1 / 2 < ⌊q + 1 / 2⌋ + 1 := Int.lt_floor_add_one _
    rw [abs_le]
    constructor <;> linarith

lemma string_mk_length (l : List Char) : (String.mk l).length = l.length := rfl

lemma rightAlign_length (w : Nat) (s : String) :
    (rightAlign w s).length = max w s.length := by
  rw [rightAlign, String.length_append, string_mk_length, List.length_replicate]
  omega

lemma padZeros_length (w : Nat) (s : String) :
    (padZeros w s).length = max w s.length := by
  rw [padZeros, String.length_append, string_mk_length, List.length_replicate]
  omega

lemma decDigitsAux_length_le : ∀ (fuel n k : Nat), 1 ≤ k → n < 10 ^ k →
    (decDigitsAux fuel n).length ≤ k := by
  intro fuel
  induction fuel with
  | zero => intro n k hk _; simp [decDigitsAux]
  | succ f ih =>
    intro n k hk hn
    rw [decDigitsAux]
    by_cases h10 : n < 10
    · simp only [if_pos h10, List.length_singleton]
      omega
    · simp only [if_neg h10, List.length_append, List.length_singleton]
      have hk2 : 2 ≤ k := by
        by_contra hc
        have : k = 1 := by omega
        subst this
        simp at hn
        omega
      have hdiv : n / 10 < 10 ^ (k - 1) := by
        have h1 : 10 ^ k = 10 * 10 ^ (k - 1) := by
          conv_lhs => rw [show k = 1 + (k - 1) by omega]
          rw [pow_add, pow_one]
        refine Nat.div_lt_of_lt_mul ?_
        omega
      have := ih (n / 10) (k - 1) (by omega) hdiv
      omega

lemma decRepr_length_le (n k : Nat) (hk : 1 ≤ k) (hn : n < 10 ^ k) :
    (decRepr n).length ≤ k := by
  rw [decRepr, string_mk_length]
  exact decDigitsAux_length_le (n + 1) n k hk hn

lemma fmt6_decimals (q : ℚ) : ∃ ip fp, fmt6 q = ip ++ "." ++ fp ∧ fp.length = 6 := by
  rw [fmt6]
  refine ⟨(if roundHalfEven (q * 1000000) < 0 then "-" else "") ++
    decRepr ((roundHalfEven (q * 1000000)).natAbs / 1000000),
    padZeros 6 (decRepr ((roundHalfEven (q * 1000000)).natAbs % 1000000)), rfl, ?_⟩
  · rw [padZeros_length]
    have hlt : (roundHalfEven (q * 1000000)).natAbs % 1000000 < 10 ^ 6 := by
      have := Nat.mod_lt (roundHalfEven (q * 1000000)).natAbs (show 0 < 1000000 by norm_num)
      norm_num
      omega
    have := decRepr_length_le ((roundHalfEven (q * 1000000)).natAbs % 1000000) 6
      (by norm_num) hlt
    omega

/-- Evaluation scheme for one printed row, reducing the rational parts to
integers that the kernel can then print. -/
lemma rowStr_eval (base s2 : ℚ) (nm : String) (pct n6 : Int)
    (hp : pyRound (100 * (base - s2) / base) = pct)
    (h6 : roundHalfEven (s2 * 1000000) = n6) :
    rowStr base (s2, nm) =
      rightAlign 6 (intRepr pct) ++ "%  " ++
        ((if n6 < 0 then "-" else "") ++ decRepr (n6.natAbs / 1000000) ++ "." ++
          padZeros 6 (decRepr (n6.natAbs % 1000000))) ++ "  " ++ nm := by
  rw [rowStr, fmt6]
  simp only [hp, h6]

/-! ### Claim C3 -/

/-- C3: for any condition's measured totals `tm`, the loop produces exactly
one Result Entry per Test Case Descriptor, in declaration order (so the entry
names are exactly the six case names, once each); `base_seconds` is set from
the first entry processed (the "setdefault" case); and each condition's table
is computed from its own freshly reset accumulator (`results = []`,
`base_seconds = None` at the start of each condition), so the whole output
depends on the two conditions' totals independently. -/
theorem c3_one_entry_per_case_and_baseline (tm : TCase → ℚ) (both : Bool → TCase → ℚ) :
    condResults tm = [(tm TCase.setdefault, "setdefault"), (tm TCase.defaultdict, "defaultdict"),
      (tm TCase.notIn, "not in"), (tm TCase.inElse, "in else"), (tm TCase.get, "get"),
      (tm TCase.tryK, "try")] ∧
    (condResults tm).map Prod.snd =
      ["setdefault", "defaultdict", "not in", "in else", "get", "try"] ∧
    (condResults tm).length = tcases.length ∧
    condBase tm = some (tm TCase.setdefault) ∧
    (condResults tm).head? = some (tm TCase.setdefault, "setdefault") ∧
    mainLines both =
      condLines "exists = False" (both false) ++ condLines "exists = True" (both true) :=
  ⟨rfl, rfl, rfl, rfl, rfl, mainLines_eq both⟩

/-! ### Claim C7 -/

/-- C7: within each condition's table the entries are sorted by nondecreasing
elapsed seconds (so distinct times appear in strictly ascending order, fastest
first; on a tie of seconds the relative order is whatever the sort of the
(seconds, name) tuples gives), and the sorted table holds exactly the
condition's Result Entries (a permutation of them). -/
theorem c7_table_sorted_by_seconds (tm : TCase → ℚ) :
    List.Pairwise (fun p q : ℚ × String => p.1 ≤ q.1) (sortedResults tm) ∧
    List.Perm (sortedResults tm) (condResults tm) ∧
    (sortedResults tm).length = 6 ∧
    condLines "e" tm = ["", "e" ++ ":", headerLine] ++
      (sortedResults tm).map (rowStr (tm TCase.setdefault)) := by
  refine ⟨?_, sortedResults_perm tm, ?_, condLines_eq "e" tm⟩
  · exact (sortedResults_pairwise tm).imp (fun h => pairLe_fst h)
  · rw [(sortedResults_perm tm).length_eq]
    rfl

/-! ### Claim C9 -/

/-- C9: descriptor defaulting is falsy-based, not absence-based: a missing
`repeat` key and `repeat = 0` both fall back to the default 10^6 iterations
(while `repeat = n + 1` is kept), and a missing `init_once` / `init_each` and
the empty string both fall back to the default `'pass'` fragment; in the
script all six descriptors omit `repeat`, so every case runs 10^6 times. -/
theorem c9_falsy_defaulting (t : TestSpec) :
    effRepeat { t with repeat_ := none } = 10 ^ 6 ∧
    effRepeat { t with repeat_ := some 0 } = 10 ^ 6 ∧
    (∀ n : Nat, effRepeat { t with repeat_ := some (n + 1) } = n + 1) ∧
    effInitOnce { t with init_once := none } = "pass" ∧
    effInitOnce { t with init_once := some "" } = "pass" ∧
    effInitEach { t with init_each := none } = "pass" ∧
    effInitEach { t with init_each := some "" } = "pass" ∧
    (∀ c : TCase, repeatOf c = 10 ^ 6) := by
  refine ⟨rfl, rfl, fun n => ?_, rfl, rfl, rfl, rfl, repeatOf_eq⟩
  simp [effRepeat, pyOrNat]

/-! ### Claim C2 -/

/-- C2 (amended): the Result Entry of the first-declared case ("setdefault")
is the normalization baseline of every row of the condition's table; its own
printed speedup is ALWAYS 0 percent (never a negative number, since
`round(100 * (base - base) / base) = 0`); and since the table is sorted by
nondecreasing seconds, any strictly faster case is printed above the baseline
entry. -/
theorem c2_baseline_speedup_zero (tm : TCase → ℚ) (_hb : 0 < tm TCase.setdefault) :
    pyRound (100 * (tm TCase.setdefault - tm TCase.setdefault) / tm TCase.setdefault) = 0 ∧
    (∀ e : String, condLines e tm = ["", e ++ ":", headerLine] ++
      (sortedResults tm).map (rowStr (tm TCase.setdefault))) ∧
    (tm TCase.setdefault, "setdefault") ∈ sortedResults tm ∧
    List.Pairwise (fun p q : ℚ × String => p.1 ≤ q.1) (sortedResults tm) := by
  refine ⟨?_, fun e => condLines_eq e tm, ?_, ?_⟩
  · rw [sub_self, mul_zero, zero_div]
    exact pyRound_zero
  · refine (sortedResults_perm tm).mem_iff.mpr ?_
    rw [condResults_eq]
    exact List.mem_map.mpr ⟨TCase.setdefault, by decide, rfl⟩
  · exact (sortedResults_pairwise tm).imp (fun h => pairLe_fst h)

/-- C2 witness: the amended statement applied at concrete totals (every case
1 second). -/
theorem c2_baseline_speedup_zero_witness :
    (0 < tmW8 false TCase.setdefault) ∧
    pyRound (100 * (tmW8 false TCase.setdefault - tmW8 false TCase.setdefault) /
      tmW8 false TCase.setdefault) = 0 :=
  ⟨by norm_num [tmW8], (c2_baseline_speedup_zero (tmW8 false) (by norm_num [tmW8])).1⟩

/-- C2 counterexample: with totals `tmW2` (setdefault 2 s, defaultdict 1 s, the
rest slower) a faster case exists and is printed above the baseline, yet the
baseline's own printed speedup is `0%`, not a negative number: the claim's
"or a negative number if a faster case exists" disjunct is false on the code. -/
theorem c2_spec_counterexample :
    tmW2 TCase.defaultdict < tmW2 TCase.setdefault ∧
    sortedResults tmW2 = [(1, "defaultdict"), (2, "setdefault"), (3, "not in"),
      (4, "in else"), (5, "get"), (6, "try")] ∧
    condLines "exists = False" tmW2 =
      ["", "exists = False:", headerLine,
        "    50%  1.000000  defaultdict",
        "     0%  2.000000  setdefault",
        "   -50%  3.000000  not in",
        "  -100%  4.000000  in else",
        "  -150%  5.000000  get",
        "  -200%  6.000000  try"] ∧
    ¬ pyRound (100 * (tmW2 TCase.setdefault - tmW2 TCase.setdefault) /
      tmW2 TCase.setdefault) < 0 := by
  have hsorted : sortedResults tmW2 = [(1, "defaultdict"), (2, "setdefault"), (3, "not in"),
      (4, "in else"), (5, "get"), (6, "try")] := by
    refine sortedResults_eq_of_sorted tmW2 _ ?_ ?_
    · rw [condResults_eq]
      show List.Perm ((2, "setdefault") :: (1, "defaultdict") :: [(3, "not in"),
        (4, "in else"), (5, "get"), (6, "try")]) _
      exact List.Perm.swap _ _ _
    · norm_num [List.pairwise_cons, pairLe_iff]
  have r1 : rowStr 2 ((1 : ℚ), "defaultdict") = "    50%  1.000000  defaultdict" := by
    rw [rowStr_eval 2 1 "defaultdict" 50 1000000 (by norm_num [pyRound])
      (by norm_num [roundHalfEven])]
    decide
  have r2 : rowStr 2 ((2 : ℚ), "setdefault") = "     0%  2.000000  setdefault" := by
    rw [rowStr_eval 2 2 "setdefault" 0 2000000 (by norm_num [pyRound])
      (by norm_num [roundHalfEven])]
    decide
  have r3 : rowStr 2 ((3 : ℚ), "not in") = "   -50%  3.000000  not in" := by
    rw [rowStr_eval 2 3 "not in" (-50) 3000000 (by norm_num [pyRound])
      (by norm_num [roundHalfEven])]
    decide
  have r4 : rowStr 2 ((4 : ℚ), "in else") = "  -100%  4.000000  in else" := by
    rw [rowStr_eval 2 4 "in else" (-100) 4000000 (by norm_num [pyRound])
      (by norm_num [roundHalfEven])]
    decide
  have r5 : rowStr 2 ((5 : ℚ), "get") = "  -150%  5.000000  get" := by
    rw [rowStr_eval 2 5 "get" (-150) 5000000 (by norm_num [pyRound])
      (by norm_num [roundHalfEven])]
    decide
  have r6 : rowStr 2 ((6 : ℚ), "try") = "  -200%  6.000000  try" := by
    rw [rowStr_eval 2 6 "try" (-200) 6000000 (by norm_num [pyRound])
      (by norm_num [roundHalfEven])]
    decide
  refine ⟨by norm_num [tmW2], hsorted, ?_, ?_⟩
  · rw [condLines_eq, hsorted]
    show _ ++ [rowStr 2 (1, "defaultdict"), rowStr 2 (2, "setdefault"), rowStr 2 (3, "not in"),
      rowStr 2 (4, "in else"), rowStr 2 (5, "get"), rowStr 2 (6, "try")] = _
    rw [r1, r2, r3, r4, r5, r6]
    rfl
  · have h0 : pyRound (100 * (tmW2 TCase.setdefault - tmW2 TCase.setdefault) /
        tmW2 TCase.setdefault) = 0 := by
      rw [sub_self, mul_zero, zero_div]
      exact pyRound_zero
    rw [h0]
    omega

/-! ### Claim C4 -/

/-- C4 (amended): each printed row consists of
`round(100 * (baseline - elapsed) / baseline)` — with Python 2 `round()`
semantics, i.e. half away from zero (`round(5/2) = 3`, `round(-5/2) = -3`,
`round(1/2) = 1`, `round(-1/2) = -1`), the rounded value within 1/2 of the
exact ratio — rendered right-aligned with MINIMUM field width 6: the field is
exactly 6 characters whenever the integer's decimal representation has at most
6 characters, and wider otherwise (the format never truncates); then the
percent sign, two spaces, the seconds with six decimals, two spaces and the
case name. -/
theorem c4_amended_percentage_field (base s2 : ℚ) (nm : String) :
    rowStr base (s2, nm) =
      rightAlign 6 (intRepr (pyRound (100 * (base - s2) / base))) ++ "%  " ++
        fmt6 s2 ++ "  " ++ nm ∧
    (rightAlign 6 (intRepr (pyRound (100 * (base - s2) / base)))).length =
      max 6 (intRepr (pyRound (100 * (base - s2) / base))).length ∧
    |100 * (base - s2) / base - (pyRound (100 * (base - s2) / base) : ℚ)| ≤ 1 / 2 ∧
    pyRound (5 / 2) = 3 ∧ pyRound (-(5 / 2)) = -3 ∧ pyRound (1 / 2) = 1 ∧
    pyRound (-(1 / 2)) = -1 ∧ pyRound 0 = 0 :=
  ⟨rfl, rightAlign_length 6 _, pyRound_close _, by norm_num [pyRound], by norm_num [pyRound],
    by norm_num [pyRound], by norm_num [pyRound], pyRound_zero⟩

/-- C4 counterexample: the rendered percentage field is NOT always 6
characters wide.  With baseline 1 s and the "try" case at 20001 s the
percentage is `-2000000`, eight characters, and the printed row of the table
for these totals is `-2000000%  20001.000000  try` — an 8-character field. -/
theorem c4_spec_counterexample :
    rowStr 1 (20001, "try") = "-2000000%  20001.000000  try" ∧
    pyRound (100 * ((1 : ℚ) - 20001) / 1) = -2000000 ∧
    (rightAlign 6 (intRepr (pyRound (100 * ((1 : ℚ) - 20001) / 1)))).length = 8 ∧
    rowStr 1 (20001, "try") ∈ condLines "exists = False" tmW4 := by
  have hp : pyRound (100 * ((1 : ℚ) - 20001) / 1) = -2000000 := by norm_num [pyRound]
  have hrow : rowStr 1 ((20001 : ℚ), "try") = "-2000000%  20001.000000  try" := by
    rw [rowStr_eval 1 20001 "try" (-2000000) 20001000000 hp (by norm_num [roundHalfEven])]
    decide
  refine ⟨hrow, hp, ?_, ?_⟩
  · rw [hp]
    decide
  · rw [condLines_eq]
    refine List.mem_append_right _ ?_
    have hm : ((20001 : ℚ), "try") ∈ sortedResults tmW4 := by
      refine (sortedResults_perm tmW4).mem_iff.mpr ?_
      rw [condResults_eq]
      exact List.mem_map.mpr ⟨TCase.tryK, by decide, rfl⟩
    exact List.mem_map.mpr ⟨((20001 : ℚ), "try"), hm, rfl⟩

/-! ### Claim C8 -/

/-- C8: the program's standard output is exactly two tables, one per
environment condition in order (`exists = False` then `exists = True`), each
introduced by a blank line and the condition label, then the header line
`speedup   seconds  option`, then one line per test case (six lines whose
names are exactly the six case names); every row is the width-6 right-aligned
percentage field, `%`, two spaces, the seconds with exactly six decimals, two
spaces, and the case name. -/
theorem c8_output_two_tables (tm : Bool → TCase → ℚ)
    (_hbf : 0 < tm false TCase.setdefault) (_hbt : 0 < tm true TCase.setdefault) :
    mainLines tm =
      (["", "exists = False:", headerLine] ++
        (sortedResults (tm false)).map (rowStr (tm false TCase.setdefault))) ++
      (["", "exists = True:", headerLine] ++
        (sortedResults (tm true)).map (rowStr (tm true TCase.setdefault))) ∧
    (∀ e : Bool, (sortedResults (tm e)).length = 6 ∧
      List.Perm ((sortedResults (tm e)).map Prod.snd)
        ["setdefault", "defaultdict", "not in", "in else", "get", "try"]) ∧
    (∀ b p, rowStr b p = rightAlign 6 (intRepr (pyRound (100 * (b - p.1) / b))) ++ "%  " ++
      fmt6 p.1 ++ "  " ++ p.2) ∧
    (∀ q : ℚ, ∃ ip fp, fmt6 q = ip ++ "." ++ fp ∧ fp.length = 6) ∧
    headerLine = "speedup   seconds  option" := by
  refine ⟨?_, ?_, fun b p => rfl, fmt6_decimals, rfl⟩
  · rw [mainLines_eq, condLines_eq, condLines_eq]
    rfl
  · intro e
    constructor
    · rw [(sortedResults_perm (tm e)).length_eq]
      rfl
    · have hmap : (condResults (tm e)).map Prod.snd =
          ["setdefault", "defaultdict", "not in", "in else", "get", "try"] := rfl
      exact hmap ▸ (sortedResults_perm (tm e)).map Prod.snd

/-- C8 witness: the output shape at concrete totals (1 second everywhere):
the hypotheses hold and the output has 18 lines — 3 + 6 per table. -/
theorem c8_output_two_tables_witness :
    (0 < tmW8 false TCase.setdefault) ∧ (0 < tmW8 true TCase.setdefault) ∧
    (mainLines tmW8).length = 18 := by
  have h := c8_output_two_tables tmW8 (by norm_num [tmW8]) (by norm_num [tmW8])
  refine ⟨by norm_num [tmW8], by norm_num [tmW8], ?_⟩
  rw [h.1]
  have h6f := (h.2.1 false).1
  have h6t := (h.2.1 true).1
  simp [h6f, h6t]

end TimeitAB
